import Mathlib

/-!
Shallow embedding of the shrust command-shell engine (src/lib.rs) and
verification of its specification claims.

The engine is embedded as pure Lean functions: handler side effects on the
shared state become state-passing (`T → List String → T`), console output
becomes an explicit list of printed lines, and the `BTreeMap` registry
becomes a key-sorted association list.
-/

namespace Shrust

/-- The error taxonomy of the engine (Rust `enum ExecError`). -/
inductive ExecError where
  | Other : String → ExecError
  | MissingArgs : ExecError
  | UnknownCommand : String → ExecError
  | Quit : ExecError
deriving DecidableEq, Repr

/-- The `fmt::Display` text of an `ExecError` (Rust `impl fmt::Display for ExecError`). -/
def ExecError.display : ExecError → String
  | .Quit => "Quit"
  | .UnknownCommand cmd => "Unknown Command " ++ cmd
  | .MissingArgs => "Not enough arguments"
  | .Other s => s

/-- The `Error::description` string of an `ExecError` (Rust `impl Error for ExecError`). -/
def ExecError.description : ExecError → String
  | .Quit => "The command requested to quit"
  | .UnknownCommand _ => "The provided command is unknown"
  | .MissingArgs => "Not enough arguments have been provided"
  | .Other _ => "Other error occured"

/-- Rust `type ExecResult = Result<(), ExecError>`. -/
abbrev ExecResult := Except ExecError Unit

instance : DecidableEq ExecResult := fun a b =>
  match a, b with
  | Except.ok (), Except.ok () => Decidable.isTrue rfl
  | Except.ok (), Except.error _ => Decidable.isFalse (by simp)
  | Except.error _, Except.ok () => Decidable.isFalse (by simp)
  | Except.error x, Except.error y =>
    if h : x = y then Decidable.isTrue (by rw [h])
    else Decidable.isFalse (by simp [h])

/-- A registered command (Rust `struct Command<T>`); the handler
`Fn(&mut T, &[&str])` is embedded as a state transformer. -/
structure Command (T : Type) where
  name : String
  description : String
  nargs : Nat
  func : T → List String → T

/-- The line printed by `Command::help`: `println!("{} :\t{}", name, description)`. -/
def Command.helpLine {T : Type} (c : Command T) : String :=
  c.name ++ " :\t" ++ c.description

/-- Rust `Command::run`: guard the argument count, then invoke the handler.
Returns the dispatch result together with the (possibly mutated) state. -/
def Command.run {T : Type} (c : Command T) (value : T) (args : List String) :
    ExecResult × T :=
  if args.length < c.nargs then (Except.error ExecError.MissingArgs, value)
  else (Except.ok (), c.func value args)

/-- Splitting a char sequence on runs of whitespace; models Rust
`str::split_whitespace` on the character sequence of the line. -/
def splitWhitespaceAux : List Char → List Char → List String
  | [], acc => if acc.isEmpty then [] else [String.mk acc.reverse]
  | c :: cs, acc =>
    if c.isWhitespace then
      if acc.isEmpty then splitWhitespaceAux cs []
      else String.mk acc.reverse :: splitWhitespaceAux cs []
    else splitWhitespaceAux cs (c :: acc)

/-- Rust `str::trim` on the character sequence: drop whitespace from both ends. -/
def trimChars (cs : List Char) : List Char :=
  ((cs.dropWhile Char.isWhitespace).reverse.dropWhile Char.isWhitespace).reverse

/-- `line.trim().split_whitespace()` from `Shell::run`. -/
def tokenize (line : String) : List String :=
  splitWhitespaceAux (trimChars line.data) []

/-- Lexicographic strict order on char sequences; models Rust's `Ord` on
`String` (lexicographic byte order coincides with lexicographic codepoint
order for UTF-8). -/
def charsLt : List Char → List Char → Bool
  | [], [] => false
  | [], _ :: _ => true
  | _ :: _, [] => false
  | a :: as, b :: bs =>
    if a < b then true
    else if b < a then false
    else charsLt as bs

/-- The key order of the registry's `BTreeMap<String, _>`. -/
def strLt (a b : String) : Bool :=
  charsLt a.data b.data

/-- Ordered insertion keyed by command name; models `BTreeMap::insert`
(replaces an existing entry with the same key, keeps keys sorted). -/
def insertSorted {T : Type} (k : String) (v : Command T) :
    List (String × Command T) → List (String × Command T)
  | [] => [(k, v)]
  | (k', v') :: rest =>
    if strLt k k' then (k, v) :: (k', v') :: rest
    else if k = k' then (k, v) :: rest
    else (k', v') :: insertSorted k v rest

/-- Key lookup in the registry; models `BTreeMap::get`. -/
def lookupCmd {T : Type} (k : String) :
    List (String × Command T) → Option (Command T)
  | [] => none
  | (k', v) :: rest => if k = k' then some v else lookupCmd k rest

/-- Rust `struct Shell<T>`: registry, shared state, prompt. -/
structure Shell (T : Type) where
  commands : List (String × Command T)
  value : T
  prompt : String

/-- Rust `Shell::new`: empty registry, given state, prompt `">"`. -/
def Shell.new {T : Type} (value : T) : Shell T :=
  ⟨[], value, ">"⟩

/-- Rust `Shell::set_prompt`. -/
def Shell.set_prompt {T : Type} (sh : Shell T) (p : String) : Shell T :=
  { sh with prompt := p }

/-- Rust `Shell::register_command`: insert keyed by the command's name. -/
def Shell.register_command {T : Type} (sh : Shell T) (cmd : Command T) : Shell T :=
  { sh with commands := insertSorted cmd.name cmd sh.commands }

/-- Rust `Shell::new_command`: construct and register in one step. -/
def Shell.new_command {T : Type} (sh : Shell T) (n d : String) (nargs : Nat)
    (func : T → List String → T) : Shell T :=
  sh.register_command ⟨n, d, nargs, func⟩

/-- The lines printed by Rust `Shell::help`: one `Command::help` line per
registry value, in `BTreeMap` iteration order (sorted by key). -/
def Shell.helpLines {T : Type} (sh : Shell T) : List String :=
  sh.commands.map fun p => p.2.helpLine

/-- Rust `Shell::run`: trim, tokenize, dispatch the first token.
Returns the result, the shell after the call, and the lines printed. -/
def Shell.run {T : Type} (sh : Shell T) (line : String) :
    ExecResult × Shell T × List String :=
  match tokenize line with
  | [] => (Except.ok (), sh, [])
  | w :: args =>
    if w = "help" then (Except.ok (), sh, sh.helpLines)
    else if w = "quit" then (Except.error ExecError.Quit, sh, [])
    else
      match lookupCmd w sh.commands with
      | none => (Except.error (ExecError.UnknownCommand w), sh, [])
      | some c =>
        let r := c.run sh.value args
        (r.1, { sh with value := r.2 }, [])

/-- Registry well-formedness, maintained by construction in Rust: keys are
strictly sorted (`BTreeMap`) and each entry is keyed by its command's name
(`register_command` inserts under `cmd.name`). -/
def Shell.Wf {T : Type} (sh : Shell T) : Prop :=
  sh.commands.Pairwise (fun p q => strLt p.1 q.1 = true) ∧
  ∀ p ∈ sh.commands, p.1 = p.2.name

/-- Number of registry entries stored under key `k`. -/
def countKey {T : Type} (k : String) (l : List (String × Command T)) : Nat :=
  (l.filter fun p => p.1 = k).length

/-- One observable console event of the read-dispatch loop: a prompt write
(`print_prompt`) or a printed line (`println!`). -/
inductive OutEvent where
  | prompt : OutEvent
  | line : String → OutEvent
deriving DecidableEq, Repr

/-- The body of Rust `Shell::run_loop` over the remaining input lines: dispatch
each line; on `Quit` return at once, on any other error print its Display text
and reprint the prompt, on success just reprint the prompt. -/
def runLoopAux {T : Type} (sh : Shell T) : List String → Shell T × List OutEvent
  | [] => (sh, [])
  | l :: rest =>
    match sh.run l with
    | (Except.error ExecError.Quit, sh', _) => (sh', [])
    | (Except.error e, sh', out) =>
      let r := runLoopAux sh' rest
      (r.1, out.map OutEvent.line ++ (OutEvent.line e.display :: OutEvent.prompt :: r.2))
    | (Except.ok _, sh', out) =>
      let r := runLoopAux sh' rest
      (r.1, out.map OutEvent.line ++ (OutEvent.prompt :: r.2))

/-- Rust `Shell::run_loop`: print the prompt once, then process the input lines. -/
def Shell.run_loop {T : Type} (sh : Shell T) (input : List String) :
    Shell T × List OutEvent :=
  let r := runLoopAux sh input
  (r.1, OutEvent.prompt :: r.2)

/-- A sample command over `Nat` state used to exercise the engine. -/
def echoCmd : Command Nat :=
  ⟨"echo", "prints", 1, fun v args => v + args.length⟩

/-- A user command that tries to shadow the built-in `quit`. -/
def quitShadowCmd : Command Nat :=
  ⟨"quit", "shadow attempt", 0, fun v _ => v + 100⟩

/-- A user command that tries to shadow the built-in `help`. -/
def helpShadowCmd : Command Nat :=
  ⟨"help", "shadow attempt", 0, fun v _ => v + 50⟩

/-- First of two registrations under the name `dup`. -/
def dupOneCmd : Command Nat :=
  ⟨"dup", "first registration", 0, fun v _ => v + 1⟩

/-- Second of two registrations under the name `dup`. -/
def dupTwoCmd : Command Nat :=
  ⟨"dup", "second registration", 2, fun v _ => v + 2⟩

/-- A sample shell with `echo` and a user command named `quit` registered. -/
def sampleShell : Shell Nat :=
  ((Shell.new 0).register_command echoCmd).register_command quitShadowCmd

/-- A sample shell with `echo` and a user command named `help` registered. -/
def helpShell : Shell Nat :=
  ((Shell.new 0).register_command echoCmd).register_command helpShadowCmd

theorem charsLt_irrefl : ∀ l : List Char, charsLt l l = false := by
  intro l
  induction l with
  | nil => rfl
  | cons a as ih => simp [charsLt, lt_irrefl, ih]

theorem charsLt_trans :
    ∀ as bs cs : List Char,
      charsLt as bs = true → charsLt bs cs = true → charsLt as cs = true := by
  intro as
  induction as with
  | nil =>
    intro bs cs h1 h2
    cases bs with
    | nil => simp [charsLt] at h1
    | cons b bs' =>
      cases cs with
      | nil => simp [charsLt] at h2
      | cons c cs' => simp [charsLt]
  | cons a as ih =>
    intro bs cs h1 h2
    cases bs with
    | nil => simp [charsLt] at h1
    | cons b bs' =>
      cases cs with
      | nil => simp [charsLt] at h2
      | cons c cs' =>
        simp only [charsLt] at h1 h2 ⊢
        by_cases hab : a < b
        · by_cases hbc : b < c
          · simp [lt_trans hab hbc]
          · by_cases hcb : c < b
            · simp [hbc, hcb] at h2
            · have heq : b = c := le_antisymm (not_lt.mp hcb) (not_lt.mp hbc)
              simp [heq ▸ hab]
        · by_cases hba : b < a
          · simp [hab, hba] at h1
          · have heq : a = b := le_antisymm (not_lt.mp hba) (not_lt.mp hab)
            simp only [hab, hba, if_false] at h1
            by_cases hbc : b < c
            · simp [heq ▸ hbc]
            · by_cases hcb : c < b
              · simp [hbc, hcb] at h2
              · have heq2 : b = c := le_antisymm (not_lt.mp hcb) (not_lt.mp hbc)
                simp only [hbc, hcb, if_false] at h2
                have hac : ¬ a < c := by rw [heq, heq2]; exact lt_irrefl c
                have hca : ¬ c < a := by rw [heq, heq2]; exact lt_irrefl c
                simp only [hac, hca, if_false]
                exact ih bs' cs' h1 h2

theorem charsLt_eq_of_both_false :
    ∀ as bs : List Char,
      charsLt as bs = false → charsLt bs as = false → as = bs := by
  intro as
  induction as with
  | nil =>
    intro bs h1 _
    cases bs with
    | nil => rfl
    | cons b bs' => simp [charsLt] at h1
  | cons a as ih =>
    intro bs h1 h2
    cases bs with
    | nil => simp [charsLt] at h2
    | cons b bs' =>
      simp only [charsLt] at h1 h2
      by_cases hab : a < b
      · simp [hab] at h1
      · by_cases hba : b < a
        · simp [hba] at h2
        · have heq : a = b := le_antisymm (not_lt.mp hba) (not_lt.mp hab)
          simp only [hab, hba, if_false] at h1 h2
          rw [heq, ih bs' h1 h2]

theorem strLt_irrefl (a : String) : strLt a a = false :=
  charsLt_irrefl a.data

theorem strLt_trans {a b c : String} (h1 : strLt a b = true) (h2 : strLt b c = true) :
    strLt a c = true :=
  charsLt_trans a.data b.data c.data h1 h2

theorem eq_of_strLt_both_false {a b : String}
    (h1 : strLt a b = false) (h2 : strLt b a = false) : a = b := by
  cases a with
  | mk da =>
    cases b with
    | mk db => exact congrArg String.mk (charsLt_eq_of_both_false da db h1 h2)

theorem ne_of_strLt {a b : String} (h : strLt a b = true) : a ≠ b := by
  intro heq
  rw [heq, strLt_irrefl] at h
  exact Bool.noConfusion h

theorem mem_insertSorted {T : Type} {k : String} {v : Command T} :
    ∀ {l : List (String × Command T)} {p : String × Command T},
      p ∈ insertSorted k v l → p = (k, v) ∨ p ∈ l := by
  intro l
  induction l with
  | nil =>
    intro p hp
    simp only [insertSorted, List.mem_singleton] at hp
    exact Or.inl hp
  | cons q rest ih =>
    intro p hp
    obtain ⟨k', v'⟩ := q
    simp only [insertSorted] at hp
    by_cases h1 : strLt k k' = true
    · rw [if_pos h1] at hp
      simp only [List.mem_cons] at hp ⊢
      tauto
    · rw [if_neg h1] at hp
      by_cases h2 : k = k'
      · rw [if_pos h2] at hp
        simp only [List.mem_cons] at hp ⊢
        tauto
      · rw [if_neg h2] at hp
        simp only [List.mem_cons] at hp ⊢
        rcases hp with hp | hp
        · tauto
        · rcases ih hp with h | h <;> tauto

theorem pairwise_insertSorted {T : Type} {k : String} {v : Command T} :
    ∀ {l : List (String × Command T)},
      l.Pairwise (fun p q => strLt p.1 q.1 = true) →
      (insertSorted k v l).Pairwise (fun p q => strLt p.1 q.1 = true) := by
  intro l
  induction l with
  | nil =>
    intro _
    simp [insertSorted]
  | cons q rest ih =>
    intro hs
    obtain ⟨k', v'⟩ := q
    rw [List.pairwise_cons] at hs
    obtain ⟨h1, h2⟩ := hs
    simp only [insertSorted]
    by_cases hlt : strLt k k' = true
    · rw [if_pos hlt, List.pairwise_cons]
      refine ⟨?_, List.pairwise_cons.mpr ⟨h1, h2⟩⟩
      intro p hp
      rcases List.mem_cons.mp hp with hp | hp
      · rw [hp]
        exact hlt
      · exact strLt_trans hlt (h1 p hp)
    · rw [if_neg hlt]
      by_cases heq : k = k'
      · rw [if_pos heq, List.pairwise_cons]
        refine ⟨?_, h2⟩
        intro p hp
        rw [heq]
        exact h1 p hp
      · rw [if_neg heq, List.pairwise_cons]
        refine ⟨?_, ih h2⟩
        intro p hp
        rcases mem_insertSorted hp with h | h
        · rw [h]
          have hfalse : strLt k k' = false := Bool.eq_false_iff.mpr hlt
          by_cases hk : strLt k' k = true
          · exact hk
          · exact absurd (eq_of_strLt_both_false hfalse (Bool.eq_false_iff.mpr hk)) heq
        · exact h1 p h

theorem lookupCmd_insertSorted_self {T : Type} (k : String) (v : Command T) :
    ∀ l : List (String × Command T), lookupCmd k (insertSorted k v l) = some v := by
  intro l
  induction l with
  | nil => simp [insertSorted, lookupCmd]
  | cons q rest ih =>
    obtain ⟨k', v'⟩ := q
    simp only [insertSorted]
    by_cases h1 : strLt k k' = true
    · rw [if_pos h1]
      simp [lookupCmd]
    · rw [if_neg h1]
      by_cases h2 : k = k'
      · rw [if_pos h2]
        simp [lookupCmd]
      · rw [if_neg h2]
        simp only [lookupCmd]
        rw [if_neg h2]
        exact ih

theorem countKey_eq_zero {T : Type} {k : String} :
    ∀ {l : List (String × Command T)}, (∀ p ∈ l, p.1 ≠ k) → countKey k l = 0 := by
  intro l h
  simp only [countKey, List.length_eq_zero]
  rw [List.filter_eq_nil_iff]
  intro p hp
  simp [h p hp]

theorem countKey_cons_self {T : Type} (k : String) (v : Command T)
    (l : List (String × Command T)) :
    countKey k ((k, v) :: l) = countKey k l + 1 := by
  simp [countKey, List.filter_cons]

theorem countKey_cons_ne {T : Type} {k k' : String} (hne : k' ≠ k) (v : Command T)
    (l : List (String × Command T)) :
    countKey k ((k', v) :: l) = countKey k l := by
  simp [countKey, List.filter_cons, hne]

theorem countKey_insertSorted {T : Type} (k : String) (v : Command T) :
    ∀ l : List (String × Command T),
      l.Pairwise (fun p q => strLt p.1 q.1 = true) →
      countKey k (insertSorted k v l) = 1 := by
  intro l
  induction l with
  | nil => intro _; simp [insertSorted, countKey]
  | cons q rest ih =>
    intro hs
    obtain ⟨k', v'⟩ := q
    rw [List.pairwise_cons] at hs
    obtain ⟨h1, h2⟩ := hs
    simp only [insertSorted]
    by_cases hlt : strLt k k' = true
    · rw [if_pos hlt, countKey_cons_self]
      have hk' : k' ≠ k := fun h => ne_of_strLt hlt h.symm
      rw [countKey_cons_ne hk']
      have hz : countKey k rest = 0 :=
        countKey_eq_zero (by
          intro p hp heqp
          exact ne_of_strLt (strLt_trans hlt (h1 p hp)) heqp.symm)
      omega
    · rw [if_neg hlt]
      by_cases heq : k = k'
      · rw [if_pos heq, countKey_cons_self]
        have hz : countKey k rest = 0 :=
          countKey_eq_zero (by
            intro p hp hpk
            exact ne_of_strLt (heq ▸ h1 p hp) hpk.symm)
        omega
      · rw [if_neg heq, countKey_cons_ne (fun h => heq h.symm)]
        exact ih h2

/-- `register_command` preserves registry well-formedness. -/
theorem wf_register_command {T : Type} {sh : Shell T} (hw : sh.Wf) (c : Command T) :
    (sh.register_command c).Wf := by
  obtain ⟨hs, hn⟩ := hw
  refine ⟨pairwise_insertSorted hs, ?_⟩
  intro p hp
  rcases mem_insertSorted hp with h | h
  · rw [h]
  · exact hn p h

/-- A freshly constructed shell has a well-formed (empty) registry. -/
theorem wf_new {T : Type} (v : T) : (Shell.new v).Wf := by
  exact ⟨List.Pairwise.nil, by intro p hp; simp [Shell.new] at hp⟩

/-- Claim C1: for every shell state (any registry contents, including a command
literally named `quit`) and every line whose first whitespace-separated token is
`quit`, `Shell::run` returns `Err(Quit)` with the shell unchanged and nothing
printed, regardless of trailing whitespace or extra argument tokens; the
registry lookup and any registered handler are never reached for that line. -/
theorem quit_dispatch_quits {T : Type} (sh : Shell T) (line : String)
    (args : List String) (ht : tokenize line = "quit" :: args) :
    sh.run line = (Except.error ExecError.Quit, sh, []) := by
  unfold Shell.run
  rw [ht]
  rfl

theorem quit_dispatch_quits_witness :
    tokenize "  quit  now " = "quit" :: ["now"] ∧
    sampleShell.run "  quit  now " = (Except.error ExecError.Quit, sampleShell, []) :=
  ⟨by decide, quit_dispatch_quits sampleShell "  quit  now " ["now"] (by decide)⟩

/-- Claim C2: for a command registered with minimum argument count `nargs`,
dispatching a line naming it with fewer than `nargs` argument tokens returns
`Err(MissingArgs)` with the shell (hence the shared state) unchanged and the
handler never invoked; dispatching with at least `nargs` tokens invokes the
handler once on the full argument list and returns `Ok(())`. -/
theorem nargs_dispatch_contract {T : Type} (sh : Shell T) (line w : String)
    (args : List String) (c : Command T)
    (ht : tokenize line = w :: args) (hh : w ≠ "help") (hq : w ≠ "quit")
    (hl : lookupCmd w sh.commands = some c) :
    (args.length < c.nargs →
      sh.run line = (Except.error ExecError.MissingArgs, sh, [])) ∧
    (c.nargs ≤ args.length →
      sh.run line = (Except.ok (), { sh with value := c.func sh.value args }, [])) := by
  constructor
  · intro hlt
    unfold Shell.run
    rw [ht]
    dsimp only
    rw [if_neg hh, if_neg hq, hl]
    simp [Command.run, hlt]
  · intro hge
    unfold Shell.run
    rw [ht]
    dsimp only
    rw [if_neg hh, if_neg hq, hl]
    simp [Command.run, Nat.not_lt.mpr hge]

theorem nargs_dispatch_contract_witness :
    sampleShell.run "echo" = (Except.error ExecError.MissingArgs, sampleShell, []) ∧
    sampleShell.run "echo a b" =
      (Except.ok (), { sampleShell with value := echoCmd.func sampleShell.value ["a", "b"] }, []) :=
  ⟨(nargs_dispatch_contract sampleShell "echo" "echo" [] echoCmd
      (by decide) (by decide) (by decide) rfl).1 (by decide),
   (nargs_dispatch_contract sampleShell "echo a b" "echo" ["a", "b"] echoCmd
      (by decide) (by decide) (by decide) rfl).2 (by decide)⟩

/-- Claim C3: dispatching a line whose first token `w` is neither `help` nor
`quit` and is not registered returns `Err(UnknownCommand(w))` carrying exactly
that token, and the Display text of that error contains `w` as a substring. -/
theorem unknown_dispatch_contract {T : Type} (sh : Shell T) (line w : String)
    (args : List String)
    (ht : tokenize line = w :: args) (hh : w ≠ "help") (hq : w ≠ "quit")
    (hl : lookupCmd w sh.commands = none) :
    sh.run line = (Except.error (ExecError.UnknownCommand w), sh, []) ∧
    ∃ pre post : String, (ExecError.UnknownCommand w).display = pre ++ w ++ post := by
  constructor
  · unfold Shell.run
    rw [ht]
    dsimp only
    rw [if_neg hh, if_neg hq, hl]
  · refine ⟨"Unknown Command ", "", ?_⟩
    simp [ExecError.display]

theorem unknown_dispatch_contract_witness :
    (Shell.new (0 : Nat)).run "foo" =
      (Except.error (ExecError.UnknownCommand "foo"), Shell.new 0, []) ∧
    ∃ pre post : String,
      (ExecError.UnknownCommand "foo").display = pre ++ "foo" ++ post :=
  unknown_dispatch_contract (Shell.new 0) "foo" "foo" []
    (by decide) (by decide) (by decide) rfl

/-- Claim C4: dispatching a line that is empty or consists only of whitespace
tokenizes to nothing and returns `Ok(())` with no observable effect: the shell
(state, registry, prompt) is unchanged and nothing is printed. -/
theorem blank_dispatch_noop {T : Type} (sh : Shell T) (line : String)
    (h : ∀ c ∈ line.data, c.isWhitespace = true) :
    tokenize line = [] ∧ sh.run line = (Except.ok (), sh, []) := by
  have hd : line.data.dropWhile Char.isWhitespace = [] := by
    rw [List.dropWhile_eq_nil_iff]
    exact h
  have ht : tokenize line = [] := by
    simp [tokenize, trimChars, hd, splitWhitespaceAux]
  refine ⟨ht, ?_⟩
  unfold Shell.run
  rw [ht]

theorem blank_dispatch_noop_witness :
    tokenize "   " = [] ∧
    sampleShell.run "   " = (Except.ok (), sampleShell, []) :=
  blank_dispatch_noop sampleShell "   " (by decide)

/-- Claim C9: error atomicity of dispatch: whenever `Shell::run` returns an
error (`Quit`, `UnknownCommand` or `MissingArgs`), the shell after the call —
shared state value, registry and prompt — is exactly the shell before the
call, and no handler was invoked. -/
theorem run_error_atomic {T : Type} (sh : Shell T) (line : String) (e : ExecError)
    (h : (sh.run line).1 = Except.error e) : (sh.run line).2.1 = sh := by
  unfold Shell.run at h ⊢
  cases ht : tokenize line with
  | nil => rfl
  | cons w args =>
    rw [ht] at h
    dsimp only at h ⊢
    by_cases hh : w = "help"
    · rw [if_pos hh] at h
      simp at h
    · rw [if_neg hh] at h ⊢
      by_cases hq : w = "quit"
      · rw [if_pos hq]
      · rw [if_neg hq] at h ⊢
        cases hl : lookupCmd w sh.commands with
        | none => rfl
        | some c =>
          rw [hl] at h
          dsimp only at h ⊢
          unfold Command.run at h ⊢
          by_cases hn : args.length < c.nargs
          · rw [if_pos hn]
          · rw [if_neg hn] at h
            simp at h

theorem run_error_atomic_witness :
    (sampleShell.run "echo").1 = Except.error ExecError.MissingArgs ∧
    (sampleShell.run "echo").2.1 = sampleShell :=
  ⟨by decide, run_error_atomic sampleShell "echo" ExecError.MissingArgs (by decide)⟩

/-- Claim C10: the engine itself never produces the `Other` variant: every
dispatch result is `Ok(())`, `Err(Quit)`, `Err(UnknownCommand(_))` or
`Err(MissingArgs)`, and `Err(Other(_))` is unreachable from `Shell::run`. -/
theorem run_never_other {T : Type} (sh : Shell T) (line : String) :
    ((sh.run line).1 = Except.ok () ∨
     (sh.run line).1 = Except.error ExecError.Quit ∨
     (∃ w, (sh.run line).1 = Except.error (ExecError.UnknownCommand w)) ∨
     (sh.run line).1 = Except.error ExecError.MissingArgs) ∧
    ∀ msg, (sh.run line).1 ≠ Except.error (ExecError.Other msg) := by
  have hcases : (sh.run line).1 = Except.ok () ∨
      (sh.run line).1 = Except.error ExecError.Quit ∨
      (∃ w, (sh.run line).1 = Except.error (ExecError.UnknownCommand w)) ∨
      (sh.run line).1 = Except.error ExecError.MissingArgs := by
    unfold Shell.run
    cases ht : tokenize line with
    | nil => left; rfl
    | cons w args =>
      dsimp only
      by_cases hh : w = "help"
      · rw [if_pos hh]
        left; rfl
      · rw [if_neg hh]
        by_cases hq : w = "quit"
        · rw [if_pos hq]
          right; left; rfl
        · rw [if_neg hq]
          cases hl : lookupCmd w sh.commands with
          | none =>
            right; right; left
            exact ⟨w, rfl⟩
          | some c =>
            dsimp only
            unfold Command.run
            by_cases hn : args.length < c.nargs
            · rw [if_pos hn]
              right; right; right; rfl
            · rw [if_neg hn]
              left; rfl
  refine ⟨hcases, ?_⟩
  intro msg hother
  rcases hcases with h | h | ⟨w, h⟩ | h <;> rw [h] at hother <;> simp at hother

theorem run_never_other_witness :
    ((Shell.new (0 : Nat)).run "foo").1 ≠ Except.error (ExecError.Other "foo") :=
  (run_never_other (Shell.new 0) "foo").2 "foo"

/-- Claim C5: registering two commands under the same name in sequence leaves
only the second reachable under that name — a lookup yields the second command,
the registry holds exactly one entry for that name (replacement, not
duplication) — and a subsequent dispatch of that name (when it is not a
built-in) runs the second command's `nargs` check and handler. -/
theorem register_same_name_replaces {T : Type} (sh : Shell T) (c1 c2 : Command T)
    (_hn : c1.name = c2.name)
    (hs : sh.commands.Pairwise (fun p q => strLt p.1 q.1 = true)) :
    lookupCmd c2.name ((sh.register_command c1).register_command c2).commands = some c2 ∧
    countKey c2.name ((sh.register_command c1).register_command c2).commands = 1 ∧
    (∀ line args, tokenize line = c2.name :: args →
      c2.name ≠ "help" → c2.name ≠ "quit" →
      (args.length < c2.nargs →
        ((sh.register_command c1).register_command c2).run line =
          (Except.error ExecError.MissingArgs,
            (sh.register_command c1).register_command c2, [])) ∧
      (c2.nargs ≤ args.length →
        ((sh.register_command c1).register_command c2).run line =
          (Except.ok (),
            { (sh.register_command c1).register_command c2 with
                value := c2.func ((sh.register_command c1).register_command c2).value args },
            []))) := by
  have hlook :
      lookupCmd c2.name ((sh.register_command c1).register_command c2).commands = some c2 :=
    lookupCmd_insertSorted_self c2.name c2 _
  refine ⟨hlook, ?_, ?_⟩
  · exact countKey_insertSorted c2.name c2 _ (pairwise_insertSorted hs)
  · intro line args ht hh hq
    exact nargs_dispatch_contract _ line c2.name args c2 ht hh hq hlook

theorem register_same_name_replaces_witness :
    lookupCmd "dup"
        (((Shell.new (0 : Nat)).register_command dupOneCmd).register_command dupTwoCmd).commands =
      some dupTwoCmd ∧
    countKey "dup"
        (((Shell.new (0 : Nat)).register_command dupOneCmd).register_command dupTwoCmd).commands = 1 :=
  ⟨(register_same_name_replaces (Shell.new 0) dupOneCmd dupTwoCmd rfl List.Pairwise.nil).1,
   (register_same_name_replaces (Shell.new 0) dupOneCmd dupTwoCmd rfl List.Pairwise.nil).2.1⟩

/-- Claim C6: dispatching a line whose first token is `help` delegates to
`Shell::help` (never reaching the registry lookup path, even if a command named
`help` is registered) and returns `Ok(())`; the help output is exactly one line
per registered command, each formatted as `name :<TAB>description`, and — for
the well-formed registries the engine constructs — in lexicographically sorted
order of command name. -/
theorem help_dispatch_sorted {T : Type} (sh : Shell T) (line : String)
    (args : List String) (ht : tokenize line = "help" :: args) :
    sh.run line = (Except.ok (), sh, sh.helpLines) ∧
    sh.helpLines = sh.commands.map (fun p => p.2.name ++ " :\t" ++ p.2.description) ∧
    sh.helpLines.length = sh.commands.length ∧
    (sh.Wf → (sh.commands.map fun p => p.2.name).Pairwise (fun a b => strLt a b = true)) := by
  refine ⟨?_, rfl, ?_, ?_⟩
  · unfold Shell.run
    rw [ht]
    rfl
  · simp [Shell.helpLines]
  · intro hw
    obtain ⟨hs, hnm⟩ := hw
    rw [List.pairwise_map]
    exact List.Pairwise.imp_of_mem
      (fun {p q} hp hq hr => (hnm p hp) ▸ (hnm q hq) ▸ hr) hs

theorem help_dispatch_sorted_witness :
    helpShell.run "help" = (Except.ok (), helpShell, helpShell.helpLines) ∧
    helpShell.helpLines = ["echo :\tprints", "help :\tshadow attempt"] ∧
    (helpShell.commands.map fun p => p.2.name).Pairwise (fun a b => strLt a b = true) :=
  ⟨(help_dispatch_sorted helpShell "help" [] (by decide)).1,
   by decide,
   (help_dispatch_sorted helpShell "help" [] (by decide)).2.2.2
     (wf_register_command (wf_register_command (wf_new 0) echoCmd) helpShadowCmd)⟩

/-- Counterexample to claim C7 as stated: for the `Other` variant the
machine-readable kind-description string is not always distinct from the
Display text — they coincide when the carried message is exactly the fixed
kind description `Other error occured`. -/
theorem other_description_collides :
    ¬ (∀ e : ExecError, e.description ≠ e.display) :=
  fun h => h (ExecError.Other "Other error occured") rfl

/-- Claim C7 (amended): Display formatting is `Quit` → `Quit`,
`UnknownCommand(name)` → a fixed prefix followed by the offending name,
`MissingArgs` → a fixed message, `Other(msg)` → `msg` verbatim; the
kind-description string is distinct from the Display text for `Quit`,
`UnknownCommand` and `MissingArgs`, while for `Other` it is the fixed string
`Other error occured`, which coincides with the Display text exactly when the
carried message is that string. -/
theorem execError_display_contract :
    ExecError.display ExecError.Quit = "Quit" ∧
    (∀ w : String, (ExecError.UnknownCommand w).display = "Unknown Command " ++ w) ∧
    ExecError.display ExecError.MissingArgs = "Not enough arguments" ∧
    (∀ msg : String, (ExecError.Other msg).display = msg) ∧
    ExecError.description ExecError.Quit ≠ ExecError.display ExecError.Quit ∧
    ExecError.description ExecError.MissingArgs ≠ ExecError.display ExecError.MissingArgs ∧
    (∀ w : String, (ExecError.UnknownCommand w).description ≠ (ExecError.UnknownCommand w).display) ∧
    (∀ msg : String, (ExecError.Other msg).description = "Other error occured" ∧
      ((ExecError.Other msg).description = (ExecError.Other msg).display ↔
        msg = "Other error occured")) := by
  refine ⟨rfl, fun w => rfl, rfl, fun msg => rfl, by decide, by decide, ?_, ?_⟩
  · intro w h
    have hd := congrArg (fun s => s.data.head?) h
    simp only [ExecError.description, ExecError.display] at hd
    rw [String.data_append] at hd
    have hu : ("Unknown Command ".data ++ w.data).head? = some 'U' := rfl
    rw [hu] at hd
    exact absurd hd (by decide)
  · intro msg
    refine ⟨rfl, ?_⟩
    constructor
    · intro h
      exact h.symm
    · intro h
      rw [h]
      rfl

theorem execError_display_contract_witness :
    (ExecError.UnknownCommand "foo").display = "Unknown Command foo" ∧
    (ExecError.UnknownCommand "foo").description ≠ (ExecError.UnknownCommand "foo").display :=
  ⟨by rw [(execError_display_contract).2.1 "foo"]; decide,
   (execError_display_contract).2.2.2.2.2.2.1 "foo"⟩

/-- Claim C8: one step of `run_loop`: if dispatching the line yields `Quit` the
loop returns immediately, printing neither the error nor another prompt; if it
yields any other error, that error's Display text is printed, the prompt is
reprinted and the loop continues on the remaining input; on success the prompt
is reprinted and the loop continues; and the loop starts by printing the
prompt once before the first line. -/
theorem run_loop_step_contract {T : Type} (sh sh' : Shell T) (l : String)
    (rest : List String) (out : List String) :
    ((sh.run l).1 = Except.error ExecError.Quit →
      runLoopAux sh (l :: rest) = ((sh.run l).2.1, [])) ∧
    (∀ e : ExecError, e ≠ ExecError.Quit →
      sh.run l = (Except.error e, sh', out) →
      runLoopAux sh (l :: rest) =
        ((runLoopAux sh' rest).1,
          out.map OutEvent.line ++
            (OutEvent.line e.display :: OutEvent.prompt :: (runLoopAux sh' rest).2))) ∧
    (sh.run l = (Except.ok (), sh', out) →
      runLoopAux sh (l :: rest) =
        ((runLoopAux sh' rest).1,
          out.map OutEvent.line ++ (OutEvent.prompt :: (runLoopAux sh' rest).2))) ∧
    sh.run_loop (l :: rest) =
      ((runLoopAux sh (l :: rest)).1, OutEvent.prompt :: (runLoopAux sh (l :: rest)).2) := by
  refine ⟨?_, ?_, ?_, rfl⟩
  · intro h
    rcases hr : sh.run l with ⟨res, sh2, out2⟩
    rw [hr] at h
    dsimp only at h
    subst h
    simp [runLoopAux, hr]
  · intro e hne hr
    cases e with
    | Quit => exact absurd rfl hne
    | Other s => simp [runLoopAux, hr]
    | MissingArgs => simp [runLoopAux, hr]
    | UnknownCommand s => simp [runLoopAux, hr]
  · intro hr
    simp [runLoopAux, hr]

theorem run_loop_step_contract_witness :
    runLoopAux sampleShell ["quit", "echo a"] = (sampleShell, []) ∧
    runLoopAux (Shell.new (0 : Nat)) ["foo"] =
      ((runLoopAux (Shell.new 0) []).1,
        List.map OutEvent.line [] ++
          (OutEvent.line (ExecError.UnknownCommand "foo").display :: OutEvent.prompt ::
            (runLoopAux (Shell.new 0) []).2)) :=
  ⟨(run_loop_step_contract sampleShell sampleShell "quit" ["echo a"] []).1 (by decide),
   (run_loop_step_contract (Shell.new 0) (Shell.new 0) "foo" [] []).2.1
     (ExecError.UnknownCommand "foo") (by decide) rfl⟩

end Shrust
